import Mathlib

/-!
# Verification of `src/librustc/traits/trans/mod.rs`

A shallow embedding of the trait-resolution methods used by trans:
`trans_fulfill_obligation`, `subst_and_normalize_erasing_regions`,
`drain_fulfillment_cx_or_panic`, and the two `DepTrackingMapConfig`
instances (`TraitSelectionCache`, `ProjectionCache`).

The module under verification calls into machinery defined elsewhere in
the compiler (the type representation, region erasure, the selection
context, the fulfillment context, inference-variable resolution, lifting,
and the dependency-tracked query cache).  Those collaborators are modelled
from the specification's data model and interface sections; each such
definition carries a doc comment saying so.  The functions of the module
itself are translated line by line from the source.
-/

/-- Modelled from the spec: a region (compile-time lifetime annotation) is
either a named region or the erased marker that region erasure produces. -/
inductive Region where
  | named : Nat → Region
  | erased : Region
deriving DecidableEq

/-- Modelled from the spec: the type representation (external to the
module).  Types may carry region annotations (`ref`), unresolved inference
placeholders (`infer`), generic parameters (`param`), and associated-type
references (`proj`, a projection `<t as Trait#id>::Assoc`). -/
inductive Ty where
  | unit : Ty
  | int : Ty
  | param : Nat → Ty
  | infer : Nat → Ty
  | ref : Region → Ty → Ty
  | proj : Nat → Ty → Ty
  | pair : Ty → Ty → Ty
deriving DecidableEq

/-- Modelled from the spec: region erasure replaces every region
annotation by the erased marker, leaving the rest of the type unchanged. -/
def Ty.eraseRegions : Ty → Ty
  | .unit => .unit
  | .int => .int
  | .param n => .param n
  | .infer n => .infer n
  | .ref _ t => .ref .erased t.eraseRegions
  | .proj i t => .proj i t.eraseRegions
  | .pair a b => .pair a.eraseRegions b.eraseRegions

/-- A type contains an unresolved inference placeholder. -/
def Ty.hasInfer : Ty → Bool
  | .unit => false
  | .int => false
  | .param _ => false
  | .infer _ => true
  | .ref _ t => t.hasInfer
  | .proj _ t => t.hasInfer
  | .pair a b => a.hasInfer || b.hasInfer

/-- Every region annotation in the type is the erased marker. -/
def Ty.regionsErased : Ty → Bool
  | .unit => true
  | .int => true
  | .param _ => true
  | .infer _ => true
  | .ref r t => (r == .erased) && t.regionsErased
  | .proj _ t => t.regionsErased
  | .pair a b => a.regionsErased && b.regionsErased

/-- A type contains no generic parameter (it is monomorphic). -/
def Ty.paramFree : Ty → Bool
  | .unit => true
  | .int => true
  | .param _ => false
  | .infer _ => true
  | .ref _ t => t.paramFree
  | .proj _ t => t.paramFree
  | .pair a b => a.paramFree && b.paramFree

/-- Modelled from the spec: substitution application (`value.subst(self,
param_substs)`).  A substitution is the list of types standing for the
generic parameters; a parameter index outside the list is left in place. -/
def Ty.subst : Ty → List Ty → Ty
  | .unit, _ => .unit
  | .int, _ => .int
  | .param n, s => s.getD n (.param n)
  | .infer n, _ => .infer n
  | .ref r t, s => .ref r (t.subst s)
  | .proj i t, s => .proj i (t.subst s)
  | .pair a b, s => .pair (a.subst s) (b.subst s)

/-- Modelled from the spec: one associated-type assumption of an
environment: `(trait/assoc id, self type, concrete form)`. -/
abbrev ProjEq := Nat × Ty × Ty

/-- Look up the concrete form of the projection `<t as Trait#i>::Assoc`
among the environment's assumptions. -/
def lookupProj (tbl : List ProjEq) (i : Nat) (t : Ty) : Option Ty :=
  (tbl.find? fun e => e.1 == i && e.2.1 == t).map fun e => e.2.2

/-- Modelled from the spec: `normalize_erasing_regions` — replace every
associated-type reference by its concrete form per the environment's
assumptions and erase every region annotation. -/
def normalizeErasingRegions (tbl : List ProjEq) : Ty → Ty
  | .unit => .unit
  | .int => .int
  | .param n => .param n
  | .infer n => .infer n
  | .ref _ t => .ref .erased (normalizeErasingRegions tbl t)
  | .proj i t =>
      let t' := normalizeErasingRegions tbl t
      match lookupProj tbl i t' with
      | some rhs => rhs
      | none => .proj i t'
  | .pair a b => .pair (normalizeErasingRegions tbl a) (normalizeErasingRegions tbl b)

/-- The environment's projection assumptions map to already-normalized
forms, as the projection cache (NormalizedType → NormalizedType) stores. -/
def NormalTable (tbl : List ProjEq) : Prop :=
  (tbl.all fun e => normalizeErasingRegions tbl e.2.2 == e.2.2) = true

instance (tbl : List ProjEq) : Decidable (NormalTable tbl) := by
  unfold NormalTable; infer_instance

/-- Modelled from the spec: a trait reference — a trait identity plus a
sequence of type arguments (`ty::PolyTraitRef`). -/
structure TraitRef where
  traitId : Nat
  args : List Ty
deriving DecidableEq

/-- Region erasure on a trait reference (`tcx.erase_regions(&trait_ref)`). -/
def TraitRef.eraseRegions (tr : TraitRef) : TraitRef :=
  { tr with args := tr.args.map Ty.eraseRegions }

/-- Modelled from the spec: an environment of assumed constraints
(`ty::ParamEnv`): the caller's assumed trait bounds, a strict/relaxed
kind tag, and the associated-type assumptions used by normalization. -/
structure ParamEnv where
  caller_bounds : List TraitRef
  reveal_all : Bool
  projTable : List ProjEq
deriving DecidableEq

/-- Region erasure applied through an environment. -/
def ParamEnv.eraseRegions (env : ParamEnv) : ParamEnv :=
  { caller_bounds := env.caller_bounds.map TraitRef.eraseRegions
    reveal_all := env.reveal_all
    projTable := env.projTable.map fun e =>
      (e.1, e.2.1.eraseRegions, e.2.2.eraseRegions) }

/-- Modelled from the spec: a pending constraint — an (environment,
predicate) pair (the cause is always the dummy cause on this path and is
omitted). -/
structure Obligation where
  param_env : ParamEnv
  predicate : TraitRef
deriving DecidableEq

/-- Modelled from the spec: a resolved-implementation descriptor
(`Vtable<'tcx, N>`): the chosen implementation, its substitution, and one
nested payload per nested obligation the implementation imposes. -/
structure Vtable (N : Type) where
  impl_def_id : Nat
  substs : List Ty
  nested : List N
deriving DecidableEq

/-- `Vtable::map`: transform every nested payload. -/
def Vtable.map {N M : Type} (f : N → M) (v : Vtable N) : Vtable M :=
  { impl_def_id := v.impl_def_id, substs := v.substs, nested := v.nested.map f }

/-- Modelled from the spec: a `Selection` is a descriptor whose nested
payloads are the predicate obligations the chosen candidate imposes. -/
abbrev Selection := Vtable Obligation

/-- Modelled from the spec: an error of the external selection algorithm. -/
abbrev SelectionError := Nat

/-- Modelled from the spec: one undischarged-obligation error collected by
the fulfillment worklist. -/
abbrev FulfillmentError := Nat

/-- A fatal internal error (`bug!` / `span_bug!`): the module aborts with
one of these instead of returning a descriptor. -/
inductive Bug where
  | ambiguity : TraitRef → Bug
  | selectionError : SelectionError → TraitRef → Bug
  | fulfillErrors : List FulfillmentError → Bug
  | unlifted : Vtable Unit → Bug
deriving DecidableEq

/-- Modelled from the spec: the fulfillment worklist
(`FulfillmentContext`), as the list of registered pending obligations. -/
abbrev FulfillmentContext := List Obligation

/-- `FulfillmentContext::register_predicate_obligation`. -/
def registerPredicateObligation (cx : FulfillmentContext) (o : Obligation) :
    FulfillmentContext :=
  cx ++ [o]

/-- Modelled from the spec: the operations the inference session and its
external engines provide to this module — single-step selection
(`SelectionContext::select`), draining the worklist
(`select_all_or_error`), and the inference-variable assignment backing
`resolve_type_vars_if_possible`. -/
structure InferCtxtOps where
  select : ParamEnv → TraitRef → Except SelectionError (Option Selection)
  selectAllOrError : FulfillmentContext → Except (List FulfillmentError) Unit
  assign : Nat → Option Ty

/-- Modelled from the spec: `resolve_type_vars_if_possible` replaces each
inference placeholder by its best-known resolution, when one exists. -/
def resolveTypeVars (ops : InferCtxtOps) : Ty → Ty
  | .unit => .unit
  | .int => .int
  | .param n => .param n
  | .infer n => (ops.assign n).getD (.infer n)
  | .ref r t => .ref r (resolveTypeVars ops t)
  | .proj i t => .proj i (resolveTypeVars ops t)
  | .pair a b => .pair (resolveTypeVars ops a) (resolveTypeVars ops b)

/-- `resolve_type_vars_if_possible` mapped through a descriptor. -/
def resolveVt (ops : InferCtxtOps) (v : Vtable Unit) : Vtable Unit :=
  { v with substs := v.substs.map (resolveTypeVars ops) }

/-- Region erasure mapped through a descriptor. -/
def eraseVt (v : Vtable Unit) : Vtable Unit :=
  { v with substs := v.substs.map Ty.eraseRegions }

/-- A descriptor contains an unresolved inference placeholder. -/
def hasInferVt (v : Vtable Unit) : Bool :=
  v.substs.any Ty.hasInfer

/-- Every region annotation in the descriptor is erased. -/
def regionsErasedVt (v : Vtable Unit) : Bool :=
  v.substs.all Ty.regionsErased

/-- Modelled from the spec: `tcx.lift_to_global` — the fallible conversion
out of the inference session, which fails exactly when an unresolved
inference placeholder remains in the value. -/
def liftToGlobal (v : Vtable Unit) : Option (Vtable Unit) :=
  if hasInferVt v then none else some v

/-- `InferCtxt::drain_fulfillment_cx_or_panic` (source lines 153–182):
drain the fulfillment worklist (`select_all_or_error`), aborting with the
full error set on failure; then resolve remaining inference variables,
erase all regions, and lift the result out of the inference session,
aborting if the lift fails. -/
def drain_fulfillment_cx_or_panic (ops : InferCtxtOps)
    (fulfill_cx : FulfillmentContext) (result : Vtable Unit) :
    Except Bug (Vtable Unit) :=
  match ops.selectAllOrError fulfill_cx with
  | .ok _ =>
      let result := resolveVt ops result
      let result := eraseVt result
      match liftToGlobal result with
      | some result => .ok result
      | none => .error (.unlifted result)
  | .error errors => .error (.fulfillErrors errors)

/-- `trans_fulfill_obligation` (source lines 32–87): erase the trait
reference's regions, run single-step selection on the obligation (aborting
on ambiguity or a selection error), register each nested obligation of the
chosen candidate with a fresh fulfillment worklist while mapping its
payload to `()`, and drain the worklist. -/
def trans_fulfill_obligation (ops : InferCtxtOps)
    (param_env : ParamEnv) (trait_ref : TraitRef) :
    Except Bug (Vtable Unit) :=
  let trait_ref := trait_ref.eraseRegions
  match ops.select param_env trait_ref with
  | .ok (some selection) =>
      let fulfill_cx : FulfillmentContext := []
      let fulfill_cx := selection.nested.foldl registerPredicateObligation fulfill_cx
      let vtable := selection.map fun _ => ()
      drain_fulfillment_cx_or_panic ops fulfill_cx vtable
  | .ok none => .error (.ambiguity trait_ref)
  | .error e => .error (.selectionError e trait_ref)

/-- `TyCtxt::subst_and_normalize_erasing_regions` (source lines 93–113):
apply the in-scope substitution, then normalize associated types erasing
regions. -/
def subst_and_normalize_erasing_regions (param_substs : List Ty)
    (param_env : ParamEnv) (value : Ty) : Ty :=
  let substituted := value.subst param_substs
  normalizeErasingRegions param_env.projTable substituted

/-- Modelled from the spec: the dependency-kind markers of the external
dependency tracker (`dep_graph::DepKind`); only `TraitSelect` is used by
this module, the others stand for the rest of the compiler's kinds. -/
inductive DepKind where
  | TraitSelect : DepKind
  | TypeckTables : DepKind
  | Hir : DepKind
deriving DecidableEq

/-- Modelled from the spec: a `DepTrackingMapConfig` — the key and value
types of a dependency-tracked map together with its dependency-kind tag. -/
structure DepTrackingMapConfig where
  Key : Type
  Value : Type
  to_dep_kind : DepKind

/-- `TraitSelectionCache` (source lines 117–127): keys are
`(ParamEnv, PolyTraitRef)` pairs, values resolved descriptors, tagged
`DepKind::TraitSelect`. -/
def TraitSelectionCache : DepTrackingMapConfig :=
  { Key := ParamEnv × TraitRef
    Value := Vtable Unit
    to_dep_kind := DepKind.TraitSelect }

/-- `ProjectionCache` (source lines 131–141): keys and values are types,
tagged `DepKind::TraitSelect`. -/
def ProjectionCache : DepTrackingMapConfig :=
  { Key := Ty
    Value := Ty
    to_dep_kind := DepKind.TraitSelect }

/-- Modelled from the spec: the dependency-tracked trait-selection cache's
storage, an association list over the config's key type. -/
abbrev TraitCacheMap := List ((ParamEnv × TraitRef) × Vtable Unit)

/-- Modelled from the spec: lookup in the dependency-tracked map; keys are
compared exactly as the caller passes them. -/
def cacheLookup (m : TraitCacheMap) (k : ParamEnv × TraitRef) :
    Option (Vtable Unit) :=
  (m.find? fun e => e.1 == k).map fun e => e.2

/-- Modelled from the spec: insertion into the dependency-tracked map. -/
def cacheInsert (m : TraitCacheMap) (k : ParamEnv × TraitRef)
    (v : Vtable Unit) : TraitCacheMap :=
  m ++ [(k, v)]

/-- Modelled from the spec: the memoized resolver — `trans_fulfill_obligation`
run through the dependency-tracked cache, keyed by the `(ParamEnv,
PolyTraitRef)` pair as passed (the config's `Key` type): on a hit the
cached descriptor is returned, on a miss the resolver runs and a
successful result is inserted under that key. -/
def trans_fulfill_obligation_memo (ops : InferCtxtOps) (cache : TraitCacheMap)
    (param_env : ParamEnv) (trait_ref : TraitRef) :
    TraitCacheMap × Except Bug (Vtable Unit) :=
  match cacheLookup cache (param_env, trait_ref) with
  | some v => (cache, .ok v)
  | none =>
      match trans_fulfill_obligation ops param_env trait_ref with
      | .ok v => (cacheInsert cache (param_env, trait_ref) v, .ok v)
      | .error b => (cache, .error b)

/-! ## Helper lemmas -/

theorem Ty.eraseRegions_idem (t : Ty) :
    t.eraseRegions.eraseRegions = t.eraseRegions := by
  induction t with
  | unit => rfl
  | int => rfl
  | param n => rfl
  | infer n => rfl
  | ref r t ih => simp [Ty.eraseRegions, ih]
  | proj i t ih => simp [Ty.eraseRegions, ih]
  | pair a b iha ihb => simp [Ty.eraseRegions, iha, ihb]

theorem traitRef_eraseRegions_idem (tr : TraitRef) :
    tr.eraseRegions.eraseRegions = tr.eraseRegions := by
  simp [TraitRef.eraseRegions, Function.comp, Ty.eraseRegions_idem]

theorem Ty.regionsErased_eraseRegions (t : Ty) :
    t.eraseRegions.regionsErased = true := by
  induction t with
  | unit => rfl
  | int => rfl
  | param n => rfl
  | infer n => rfl
  | ref r t ih => simp [Ty.eraseRegions, Ty.regionsErased, ih]
  | proj i t ih => simp [Ty.eraseRegions, Ty.regionsErased, ih]
  | pair a b iha ihb => simp [Ty.eraseRegions, Ty.regionsErased, iha, ihb]

theorem regionsErasedVt_eraseVt (v : Vtable Unit) :
    regionsErasedVt (eraseVt v) = true := by
  simp [regionsErasedVt, eraseVt, List.all_eq_true, Ty.regionsErased_eraseRegions]

theorem foldl_registerPredicateObligation (l : List Obligation) :
    ∀ cx : FulfillmentContext, l.foldl registerPredicateObligation cx = cx ++ l := by
  induction l with
  | nil => intro cx; simp
  | cons o l ih => intro cx; simp [registerPredicateObligation, ih]

/-- The finalizer never changes which nested payloads a descriptor carries. -/
theorem drain_ok_nested (ops : InferCtxtOps) (cx : FulfillmentContext)
    (w v : Vtable Unit) (h : drain_fulfillment_cx_or_panic ops cx w = .ok v) :
    v.nested = w.nested := by
  unfold drain_fulfillment_cx_or_panic at h
  cases hsel : ops.selectAllOrError cx with
  | ok u =>
    simp only [hsel] at h
    unfold liftToGlobal at h
    by_cases hi : hasInferVt (eraseVt (resolveVt ops w))
    · simp [hi] at h
    · simp [hi] at h
      subst h
      rfl
  | error errs => simp [hsel] at h

/-! ## Claims -/

/-- C10: the trait-selection cache and the projection cache carry the same
dependency-kind marker, `DepKind.TraitSelect`, so the external dependency
tracker cannot tell their insertions apart by kind. -/
theorem caches_share_dep_kind :
    TraitSelectionCache.to_dep_kind = ProjectionCache.to_dep_kind ∧
    TraitSelectionCache.to_dep_kind = DepKind.TraitSelect :=
  ⟨rfl, rfl⟩

/-- The resolver erases the trait reference's regions as its first step,
so pre-erasing the argument changes nothing. -/
theorem trans_erase_trait_ref (ops : InferCtxtOps) (env : ParamEnv)
    (tr : TraitRef) :
    trans_fulfill_obligation ops env tr =
      trans_fulfill_obligation ops env tr.eraseRegions := by
  unfold trans_fulfill_obligation
  rw [traitRef_eraseRegions_idem]

/-- C5: resolving a trait reference with region annotations intact and
with all regions pre-erased yields the same result: the resolver is
invariant under region erasure of its trait-reference argument. -/
theorem trans_insensitive_to_trait_ref_regions (ops : InferCtxtOps)
    (env : ParamEnv) (tr : TraitRef) :
    trans_fulfill_obligation ops env tr =
      trans_fulfill_obligation ops env tr.eraseRegions :=
  trans_erase_trait_ref ops env tr

/-- C1: the resolver proceeds only when single-step selection returns
exactly one determined candidate; on `Ok(None)` it aborts with the
overflow/ambiguity bug, on a selection error it aborts with that error,
and in neither failure case does it return a descriptor. -/
theorem trans_fulfill_selection_gate (ops : InferCtxtOps) (env : ParamEnv)
    (tr : TraitRef) :
    (ops.select env tr.eraseRegions = .ok none →
      trans_fulfill_obligation ops env tr =
        .error (.ambiguity tr.eraseRegions)) ∧
    (∀ e, ops.select env tr.eraseRegions = .error e →
      trans_fulfill_obligation ops env tr =
        .error (.selectionError e tr.eraseRegions)) ∧
    (∀ v, trans_fulfill_obligation ops env tr = .ok v →
      ∃ sel, ops.select env tr.eraseRegions = .ok (some sel)) := by
  refine ⟨fun h => ?_, fun e h => ?_, fun v h => ?_⟩
  · simp only [trans_fulfill_obligation, h]
  · simp only [trans_fulfill_obligation, h]
  · simp only [trans_fulfill_obligation] at h
    cases hsel : ops.select env tr.eraseRegions with
    | ok o =>
      cases o with
      | some sel => exact ⟨sel, rfl⟩
      | none => rw [hsel] at h; cases h
    | error e => rw [hsel] at h; cases h

/-- C4: whenever draining the fulfillment worklist fails, the finalizer
aborts carrying exactly the full set of undischarged-obligation errors the
worklist returned, and no descriptor is returned. -/
theorem drain_carries_full_error_set (ops : InferCtxtOps)
    (cx : FulfillmentContext) (result : Vtable Unit)
    (errs : List FulfillmentError)
    (h : ops.selectAllOrError cx = .error errs) :
    drain_fulfillment_cx_or_panic ops cx result =
      .error (.fulfillErrors errs) := by
  unfold drain_fulfillment_cx_or_panic
  rw [h]

/-- C2: the finalizer returns a value exactly when the worklist drains
cleanly and the resolved, region-erased result lifts out of the inference
session; every value it returns contains zero unresolved inference
placeholders and zero non-erased region annotations. -/
theorem drain_finalizer_no_leftover (ops : InferCtxtOps)
    (cx : FulfillmentContext) (result r : Vtable Unit) :
    drain_fulfillment_cx_or_panic ops cx result = .ok r ↔
      (ops.selectAllOrError cx = .ok () ∧
       liftToGlobal (eraseVt (resolveVt ops result)) = some r ∧
       hasInferVt r = false ∧ regionsErasedVt r = true) := by
  constructor
  · intro h
    unfold drain_fulfillment_cx_or_panic at h
    cases hsel : ops.selectAllOrError cx with
    | ok u =>
      simp only [hsel] at h
      refine ⟨rfl, ?_, ?_, ?_⟩
      · unfold liftToGlobal at h ⊢
        by_cases hi : hasInferVt (eraseVt (resolveVt ops result))
        · simp [hi] at h
        · simp [hi] at h ⊢; exact h
      · unfold liftToGlobal at h
        by_cases hi : hasInferVt (eraseVt (resolveVt ops result))
        · simp [hi] at h
        · simp [hi] at h
          rw [← h]
          simpa using hi
      · unfold liftToGlobal at h
        by_cases hi : hasInferVt (eraseVt (resolveVt ops result))
        · simp [hi] at h
        · simp [hi] at h
          rw [← h]
          exact regionsErasedVt_eraseVt (resolveVt ops result)
    | error errs => simp [hsel] at h
  · rintro ⟨hsel, hlift, -, -⟩
    simp only [drain_fulfillment_cx_or_panic, hsel, hlift]

/-- C9: after a successful selection, the nested predicate obligations of
the chosen candidate are exactly the worklist handed to the finalizer, and
the returned descriptor carries the unit payload at every nested slot. -/
theorem nested_registered_and_unit_payload (ops : InferCtxtOps)
    (env : ParamEnv) (tr : TraitRef) (sel : Selection)
    (h : ops.select env tr.eraseRegions = .ok (some sel)) :
    trans_fulfill_obligation ops env tr =
      drain_fulfillment_cx_or_panic ops sel.nested (sel.map fun _ => ()) ∧
    ∀ v, trans_fulfill_obligation ops env tr = .ok v →
      v.nested = List.replicate sel.nested.length () := by
  have h1 : trans_fulfill_obligation ops env tr =
      drain_fulfillment_cx_or_panic ops sel.nested (sel.map fun _ => ()) := by
    simp only [trans_fulfill_obligation, h]
    rw [foldl_registerPredicateObligation]
    simp
  refine ⟨h1, fun v hv => ?_⟩
  rw [h1] at hv
  rw [drain_ok_nested _ _ _ _ hv]
  simp [Vtable.map, List.map_const']

/-- The modelled external selection algorithm consults its environment
only through the environment's region-erased form, as the spec states
regions are irrelevant to which implementation is chosen. -/
def SelectRegionInsensitive (ops : InferCtxtOps) : Prop :=
  ∀ env env' tr, env.eraseRegions = env'.eraseRegions →
    ops.select env tr = ops.select env' tr

/-- C6: with region-insensitive selection, two resolution calls whose
(environment, trait-reference) inputs agree after region erasure return
identical results. -/
theorem trans_deterministic_after_erasure (ops : InferCtxtOps)
    (hsel : SelectRegionInsensitive ops) (env1 env2 : ParamEnv)
    (tr1 tr2 : TraitRef) (henv : env1.eraseRegions = env2.eraseRegions)
    (htr : tr1.eraseRegions = tr2.eraseRegions) :
    trans_fulfill_obligation ops env1 tr1 =
      trans_fulfill_obligation ops env2 tr2 := by
  simp only [trans_fulfill_obligation, htr,
    hsel env1 env2 tr2.eraseRegions henv]

theorem lookupProj_mem (tbl : List ProjEq) (i : Nat) (t r : Ty)
    (h : lookupProj tbl i t = some r) : ∃ e ∈ tbl, e.2.2 = r := by
  unfold lookupProj at h
  cases hf : tbl.find? (fun e => e.1 == i && e.2.1 == t) with
  | none => rw [hf] at h; cases h
  | some e =>
    rw [hf] at h
    exact ⟨e, List.mem_of_find?_eq_some hf, by simpa using h⟩

theorem normalTable_rhs_normal {tbl : List ProjEq} (hN : NormalTable tbl)
    {i : Nat} {t r : Ty} (h : lookupProj tbl i t = some r) :
    normalizeErasingRegions tbl r = r := by
  obtain ⟨e, he, rfl⟩ := lookupProj_mem tbl i t _ h
  unfold NormalTable at hN
  have := List.all_eq_true.mp hN e he
  simpa using this

theorem normalizeErasingRegions_idem (tbl : List ProjEq) (hN : NormalTable tbl) (t : Ty) :
    normalizeErasingRegions tbl (normalizeErasingRegions tbl t) =
      normalizeErasingRegions tbl t := by
  induction t with
  | unit => rfl
  | int => rfl
  | param n => rfl
  | infer n => rfl
  | ref r t ih => simp [normalizeErasingRegions, ih]
  | proj i t ih =>
    have hstep : normalizeErasingRegions tbl (Ty.proj i t) =
        match lookupProj tbl i (normalizeErasingRegions tbl t) with
        | some rhs => rhs
        | none => Ty.proj i (normalizeErasingRegions tbl t) := rfl
    rw [hstep]
    cases hl : lookupProj tbl i (normalizeErasingRegions tbl t) with
    | some rhs =>
      simp only
      exact normalTable_rhs_normal hN hl
    | none =>
      have hstep2 : normalizeErasingRegions tbl
          (Ty.proj i (normalizeErasingRegions tbl t)) =
          match lookupProj tbl i (normalizeErasingRegions tbl
              (normalizeErasingRegions tbl t)) with
          | some rhs => rhs
          | none => Ty.proj i (normalizeErasingRegions tbl
              (normalizeErasingRegions tbl t)) := rfl
      simp only [hstep2, ih, hl]
  | pair a b iha ihb => simp [normalizeErasingRegions, iha, ihb]

theorem Ty.subst_of_paramFree (t : Ty) (s : List Ty)
    (h : t.paramFree = true) : t.subst s = t := by
  induction t with
  | unit => rfl
  | int => rfl
  | param n => simp [Ty.paramFree] at h
  | infer n => rfl
  | ref r t ih =>
    simp only [Ty.paramFree] at h
    simp [Ty.subst, ih h]
  | proj i t ih =>
    simp only [Ty.paramFree] at h
    simp [Ty.subst, ih h]
  | pair a b iha ihb =>
    simp only [Ty.paramFree, Bool.and_eq_true] at h
    simp [Ty.subst, iha h.1, ihb h.2]

/-- C7 (amended): the normalizer is idempotent whenever the
once-normalized value is monomorphic (no generic parameters remain, the
module's stated assumption) — the environment's projection assumptions map
to normalized forms as the projection cache stores them. -/
theorem subst_normalize_idempotent_of_monomorphic (s : List Ty)
    (env : ParamEnv) (v : Ty) (hN : NormalTable env.projTable)
    (hM : (subst_and_normalize_erasing_regions s env v).paramFree = true) :
    subst_and_normalize_erasing_regions s env
        (subst_and_normalize_erasing_regions s env v) =
      subst_and_normalize_erasing_regions s env v := by
  simp only [subst_and_normalize_erasing_regions] at hM ⊢
  rw [Ty.subst_of_paramFree _ s hM]
  exact normalizeErasingRegions_idem env.projTable hN _

/-- C8: the normalizer is the composition of substitution application
followed by associated-type normalization under the environment's
assumptions; in particular a projection whose (substituted, normalized)
scrutinee the environment resolves is replaced by its concrete form. -/
theorem subst_then_normalize_composition (s : List Ty) (env : ParamEnv)
    (v : Ty) :
    subst_and_normalize_erasing_regions s env v =
      normalizeErasingRegions env.projTable (v.subst s) ∧
    ∀ i t rhs,
      lookupProj env.projTable i
          (normalizeErasingRegions env.projTable (t.subst s)) = some rhs →
      subst_and_normalize_erasing_regions s env (Ty.proj i t) = rhs := by
  refine ⟨rfl, fun i t rhs h => ?_⟩
  have hstep : normalizeErasingRegions env.projTable
      (Ty.proj i (t.subst s)) =
      match lookupProj env.projTable i
          (normalizeErasingRegions env.projTable (t.subst s)) with
      | some rhs => rhs
      | none => Ty.proj i (normalizeErasingRegions env.projTable
          (t.subst s)) := rfl
  simp only [subst_and_normalize_erasing_regions, Ty.subst, hstep, h]

/-- C3 (amended): the dependency-tracked cache compares keys exactly as
the caller passes them — neither the environment nor the trait reference
is region-erased at lookup or insertion, so any two distinct raw keys
occupy distinct entries — while inside the computation the resolver erases
the trait reference's regions, making the computed descriptor invariant
under region erasure of the trait-reference component. -/
theorem cache_key_as_passed (ops : InferCtxtOps) (env env' : ParamEnv)
    (tr tr' : TraitRef) (v : Vtable Unit)
    (hne : (env, tr) ≠ (env', tr')) :
    cacheLookup (cacheInsert [] (env, tr) v) (env', tr') = none ∧
    trans_fulfill_obligation ops env tr =
      trans_fulfill_obligation ops env tr.eraseRegions := by
  refine ⟨?_, trans_erase_trait_ref ops env tr⟩
  have hb : ((env, tr) == (env', tr')) = false := beq_eq_false_iff_ne.mpr hne
  simp [cacheLookup, cacheInsert, List.find?, hb]

/-! ## Concrete inputs for witnesses and counterexamples -/

/-- A concrete selection: implementation 1 instantiated at `int`, no
nested obligations. -/
def selIntImpl : Selection :=
  { impl_def_id := 1, substs := [Ty.int], nested := [] }

/-- Concrete inference-session operations whose selection always chooses
`selIntImpl` (ignoring the environment) and whose worklist always drains
cleanly. -/
def opsConst : InferCtxtOps :=
  { select := fun _ _ => .ok (some selIntImpl)
    selectAllOrError := fun _ => .ok ()
    assign := fun _ => none }

/-- Concrete operations whose worklist drain fails with two errors. -/
def opsFulfillErr : InferCtxtOps :=
  { select := fun _ _ => .ok (some selIntImpl)
    selectAllOrError := fun _ => .error [3, 7]
    assign := fun _ => none }

/-- An environment whose single assumed bound mentions a named region. -/
def envNamed : ParamEnv :=
  { caller_bounds := [{ traitId := 0, args := [Ty.ref (Region.named 0) Ty.int] }]
    reveal_all := false
    projTable := [] }

/-- The same environment with the bound's region erased. -/
def envErased : ParamEnv :=
  { caller_bounds := [{ traitId := 0, args := [Ty.ref Region.erased Ty.int] }]
    reveal_all := false
    projTable := [] }

/-- The empty environment. -/
def envEmpty : ParamEnv :=
  { caller_bounds := [], reveal_all := false, projTable := [] }

/-- A concrete region-free trait reference. -/
def trInt : TraitRef := { traitId := 0, args := [Ty.int] }

/-- A concrete empty descriptor. -/
def vtEmpty : Vtable Unit := { impl_def_id := 0, substs := [], nested := [] }

/-- C3 (counterexample): two cache keys that differ only in a region
annotation of the environment component do not map to the same cache
entry: after the resolution for `envNamed` populates the cache, a lookup
with the region-erased environment misses. -/
theorem cache_env_region_counterexample :
    ParamEnv.eraseRegions envNamed = ParamEnv.eraseRegions envErased ∧
    envNamed ≠ envErased ∧
    cacheLookup (trans_fulfill_obligation_memo opsConst [] envNamed trInt).1
        (envNamed, trInt) =
      some { impl_def_id := 1, substs := [Ty.int], nested := [] } ∧
    cacheLookup (trans_fulfill_obligation_memo opsConst [] envNamed trInt).1
        (envErased, trInt) = none := by
  refine ⟨by decide, by decide, rfl, rfl⟩

theorem cache_key_as_passed_witness :
    cacheLookup (cacheInsert [] (envNamed, trInt) vtEmpty)
        (envErased, trInt) = none ∧
    trans_fulfill_obligation opsConst envNamed trInt =
      trans_fulfill_obligation opsConst envNamed trInt.eraseRegions :=
  cache_key_as_passed opsConst envNamed envErased trInt trInt vtEmpty
    (by decide)

theorem drain_carries_full_error_set_witness :
    drain_fulfillment_cx_or_panic opsFulfillErr [] vtEmpty =
      .error (.fulfillErrors [3, 7]) :=
  drain_carries_full_error_set opsFulfillErr [] vtEmpty [3, 7] rfl

theorem trans_deterministic_after_erasure_witness :
    trans_fulfill_obligation opsConst envNamed trInt =
      trans_fulfill_obligation opsConst envErased trInt :=
  trans_deterministic_after_erasure opsConst (fun _ _ _ _ => rfl)
    envNamed envErased trInt trInt (by decide) rfl

theorem nested_registered_and_unit_payload_witness :
    (trans_fulfill_obligation opsConst envEmpty trInt =
      drain_fulfillment_cx_or_panic opsConst selIntImpl.nested
        (selIntImpl.map fun _ => ()) ∧
    ∀ v, trans_fulfill_obligation opsConst envEmpty trInt = .ok v →
      v.nested = List.replicate selIntImpl.nested.length ()) :=
  nested_registered_and_unit_payload opsConst envEmpty trInt selIntImpl rfl

/-- C7 (counterexample): with the substitution `[param 1, unit]` the
normalizer is not idempotent — normalizing `param 0` once yields
`param 1`, normalizing again substitutes a second time and yields `unit`. -/
theorem subst_normalize_not_idempotent :
    ¬ (subst_and_normalize_erasing_regions [Ty.param 1, Ty.unit] envEmpty
        (subst_and_normalize_erasing_regions [Ty.param 1, Ty.unit] envEmpty
          (Ty.param 0)) =
      subst_and_normalize_erasing_regions [Ty.param 1, Ty.unit] envEmpty
        (Ty.param 0)) := by
  decide

theorem subst_normalize_idempotent_witness :
    subst_and_normalize_erasing_regions [Ty.unit] envEmpty
        (subst_and_normalize_erasing_regions [Ty.unit] envEmpty
          (Ty.param 0)) =
      subst_and_normalize_erasing_regions [Ty.unit] envEmpty (Ty.param 0) :=
  subst_normalize_idempotent_of_monomorphic [Ty.unit] envEmpty (Ty.param 0)
    (by decide) (by decide)
